import Mathlib

/-!
Verification of the admission-control, deduplication, pricing and
orchestration pipeline of the integrity.molt repository.

The Python modules `src/payment_processor.py`, `src/quota_manager.py`,
`src/audit_cache.py` and `src/security_auditor.py` are shallowly embedded
below.  Monetary amounts that Python represents with `Decimal` (exact
decimal arithmetic) or `float` are modelled as exact rationals `ℚ`; none of
the properties settled here depends on binary floating-point rounding.
Timestamps (`datetime.utcnow()` / ISO strings) are modelled as a numeric
clock in whole seconds (`ℕ`); all timestamp operations in the source are
order comparisons and window subtractions, which the `ℕ` clock reproduces
(conditions of the form `ts > now - W` are written `now < ts + W` so that
no truncated subtraction changes their meaning).
-/

namespace IntegrityMolt

/-! ## FeeCalculator: `PaymentProcessor.calculate_audit_fee` -/

/-- Lamports per SOL, mirroring `LAMPORTS_PER_SOL = 1_000_000_000`. -/
def lamportsPerSol : ℕ := 1000000000

/-- Mirrors `PRICING["base_fee_sol"] = Decimal("0.05")`. -/
def baseFeeSol : ℚ := 5/100

/-- Mirrors `PRICING["per_token_cost"] = Decimal("0.000001")`. -/
def perTokenCost : ℚ := 1/1000000

/-- Mirrors `PRICING["risk_multiplier"].get(str(risk_score), Decimal("1.0"))`:
the table is keyed by the strings "1".."10"; any other key — in particular an
out-of-range risk bucket — falls back to the default `Decimal("1.0")`.
The string keys are modelled by their integer values. -/
def riskMultiplier (riskScore : ℤ) : ℚ :=
  if riskScore = 1 then 1
  else if riskScore = 2 then 1
  else if riskScore = 3 then 11/10
  else if riskScore = 4 then 11/10
  else if riskScore = 5 then 12/10
  else if riskScore = 6 then 15/10
  else if riskScore = 7 then 18/10
  else if riskScore = 8 then 2
  else if riskScore = 9 then 25/10
  else if riskScore = 10 then 3
  else 1

/-- Fee breakdown returned by `calculate_audit_fee` (the fields the spec's
`FeeQuote` names: pre-rounding total in SOL, rounded total in lamports, the
risk multiplier applied and the discount applied). -/
structure FeeInfo where
  feeSol : ℚ
  feeLamports : ℤ
  riskMult : ℚ
  discountSol : ℚ
  deriving Repr

/-- Mirrors `PaymentProcessor.calculate_audit_fee`:
`token_fee = tokens_used * per_token_cost / LAMPORTS_PER_SOL`,
`subtotal = (base_fee + token_fee) * risk_mult`, a 20 % subscriber discount
(`subtotal = subtotal - subtotal * 0.2`), and `fee_lamports =
int(subtotal * LAMPORTS_PER_SOL)`.  Python's `int()` truncates toward zero;
the subtotal is nonnegative, so this is the floor. -/
def calculateAuditFee (tokensUsed : ℕ) (riskScore : ℤ) (isSubscriber : Bool) : FeeInfo :=
  let tokenFee : ℚ := (tokensUsed : ℚ) * perTokenCost / (lamportsPerSol : ℚ)
  let riskMult := riskMultiplier riskScore
  let subtotal0 := (baseFeeSol + tokenFee) * riskMult
  let discount : ℚ := if isSubscriber then subtotal0 * (2/10) else 0
  let subtotal := subtotal0 - discount
  { feeSol := subtotal
    feeLamports := ⌊subtotal * (lamportsPerSol : ℚ)⌋
    riskMult := riskMult
    discountSol := discount }

lemma riskMultiplier_of_out_of_range (r : ℤ) (h : r < 1 ∨ 10 < r) :
    riskMultiplier r = 1 := by
  unfold riskMultiplier
  split_ifs <;> first | rfl | (exfalso; omega)

lemma riskMultiplier_pos (r : ℤ) : 0 < riskMultiplier r := by
  unfold riskMultiplier
  split_ifs <;> norm_num

lemma riskMultiplier_mono (r1 r2 : ℤ) (h1 : 1 ≤ r1) (h : r1 ≤ r2) (h2 : r2 ≤ 10) :
    riskMultiplier r1 ≤ riskMultiplier r2 := by
  have h1' : r1 ≤ 10 := le_trans h h2
  have h2' : 1 ≤ r2 := le_trans h1 h
  interval_cases r1 <;> interval_cases r2 <;> norm_num [riskMultiplier]

/-- The fee in SOL, restructured as a product of three factors. -/
lemma feeSol_factored (t : ℕ) (r : ℤ) (b : Bool) :
    (calculateAuditFee t r b).feeSol =
      (baseFeeSol + (t : ℚ) * perTokenCost / (lamportsPerSol : ℚ)) * riskMultiplier r *
        (if b then 8/10 else 1) := by
  simp only [calculateAuditFee]
  cases b
  all_goals simp
  all_goals ring

lemma feeLamports_eq_floor (t : ℕ) (r : ℤ) (b : Bool) :
    (calculateAuditFee t r b).feeLamports =
      ⌊(calculateAuditFee t r b).feeSol * (lamportsPerSol : ℚ)⌋ := by
  simp only [calculateAuditFee]

lemma base_plus_token_nonneg (t : ℕ) :
    0 ≤ baseFeeSol + (t : ℚ) * perTokenCost / (lamportsPerSol : ℚ) := by
  unfold baseFeeSol perTokenCost lamportsPerSol
  positivity

lemma feeSol_nonneg (t : ℕ) (r : ℤ) (b : Bool) : 0 ≤ (calculateAuditFee t r b).feeSol := by
  rw [feeSol_factored]
  have h1 := base_plus_token_nonneg t
  have h2 := le_of_lt (riskMultiplier_pos r)
  cases b <;> simp <;> positivity

/-- C4 as stated is false: the code does not clamp an out-of-range risk
bucket into [1,10]; `dict.get` falls back to the default multiplier 1.0.
At workload 1000, risk bucket 11 prices with multiplier 1.0 while bucket 10
prices with multiplier 3.0, so `quote(1000, 11)` differs from
`quote(1000, 10)` — contradicting the claim that a bucket above 10 is
clamped to 10. -/
theorem riskBucket_eleven_ne_ten :
    (calculateAuditFee 1000 11 false).feeLamports ≠
      (calculateAuditFee 1000 10 false).feeLamports := by
  norm_num [calculateAuditFee, riskMultiplier, baseFeeSol, perTokenCost, lamportsPerSol]

/-- C4 amended: the fee quote raises no error for an out-of-range risk bucket
(the function is total), but instead of clamping into [1,10] the code gives
any bucket outside [1,10] the default multiplier 1.0, which coincides with
the bucket-1 multiplier: for r < 1 or r > 10, quote(w, r, tier) equals
quote(w, 1, tier) — so the claim's "r < 1 behaves like r = 1" direction
holds, while "r > 10 behaves like r = 10" does not. -/
theorem outOfRange_risk_defaults (t : ℕ) (r : ℤ) (b : Bool)
    (h : r < 1 ∨ 10 < r) :
    calculateAuditFee t r b = calculateAuditFee t 1 b := by
  have hm : riskMultiplier r = riskMultiplier 1 := by
    rw [riskMultiplier_of_out_of_range r h]
    norm_num [riskMultiplier]
  unfold calculateAuditFee
  rw [hm]

theorem outOfRange_risk_defaults_witness :
    ((11 : ℤ) < 1 ∨ 10 < (11 : ℤ)) ∧
      calculateAuditFee 1000 11 false = calculateAuditFee 1000 1 false :=
  ⟨by norm_num, outOfRange_risk_defaults 1000 11 false (by norm_num)⟩

/-- C8 as stated is false: after rounding to an integer lamport amount the
subscriber and free quotes do not always differ by exactly the 20 % discount.
At workload 10^6 and risk bucket 1 the free quote is 50000001 lamports and
the subscriber quote is 40000000 lamports, and
5 * 40000000 = 200000000 ≠ 200000004 = 4 * 50000001. -/
theorem discount_not_exact_after_rounding :
    ¬ (5 * (calculateAuditFee 1000000 1 true).feeLamports =
        4 * (calculateAuditFee 1000000 1 false).feeLamports) := by
  norm_num [calculateAuditFee, riskMultiplier, baseFeeSol, perTokenCost, lamportsPerSol]

/-- C8 amended: for every workload and risk bucket the subscriber quote is at
most the free quote; the pre-rounding SOL amounts differ by exactly the 20 %
discount (subscriber = 4/5 · free) and by nothing else; and at the
scenario-D input (workload 1000, risk bucket 8) the rounded lamport totals
are 100000000 and 80000000, which differ by exactly 20 %. -/
theorem subscriber_discount :
    (∀ (t : ℕ) (r : ℤ),
        (calculateAuditFee t r true).feeSol = 4/5 * (calculateAuditFee t r false).feeSol ∧
        (calculateAuditFee t r true).feeLamports ≤ (calculateAuditFee t r false).feeLamports) ∧
    (calculateAuditFee 1000 8 false).feeLamports = 100000000 ∧
    (calculateAuditFee 1000 8 true).feeLamports = 80000000 ∧
    5 * (calculateAuditFee 1000 8 true).feeLamports =
      4 * (calculateAuditFee 1000 8 false).feeLamports := by
  refine ⟨fun t r => ?_, ?_, ?_, ?_⟩
  · have hfac := feeSol_factored t r true
    have hfac' := feeSol_factored t r false
    have heq : (calculateAuditFee t r true).feeSol =
        4/5 * (calculateAuditFee t r false).feeSol := by
      rw [hfac, hfac']; simp; ring
    refine ⟨heq, ?_⟩
    rw [feeLamports_eq_floor, feeLamports_eq_floor]
    apply Int.floor_le_floor
    have h0 : 0 ≤ (calculateAuditFee t r false).feeSol := feeSol_nonneg t r false
    have : (calculateAuditFee t r true).feeSol ≤ (calculateAuditFee t r false).feeSol := by
      rw [heq]; nlinarith
    have hl : (0:ℚ) ≤ (lamportsPerSol : ℚ) := by unfold lamportsPerSol; norm_num
    exact mul_le_mul_of_nonneg_right this hl
  · norm_num [calculateAuditFee, riskMultiplier, baseFeeSol, perTokenCost, lamportsPerSol]
  · norm_num [calculateAuditFee, riskMultiplier, baseFeeSol, perTokenCost, lamportsPerSol]
  · norm_num [calculateAuditFee, riskMultiplier, baseFeeSol, perTokenCost, lamportsPerSol]

/-- C9: for a fixed tier the quote is monotonically non-decreasing in the
workload (token count) and, within [1,10], in the risk bucket: whenever
t1 ≤ t2, 1 ≤ r1 ≤ r2 ≤ 10, both the pre-rounding SOL amount and the rounded
lamport amount at (t1, r1) are at most those at (t2, r2).  Taking r1 = r2
gives monotonicity in the workload; taking t1 = t2 gives monotonicity in the
risk bucket. -/
theorem fee_monotone (b : Bool) (t1 t2 : ℕ) (r1 r2 : ℤ)
    (ht : t1 ≤ t2) (hr1 : 1 ≤ r1) (hr : r1 ≤ r2) (hr2 : r2 ≤ 10) :
    (calculateAuditFee t1 r1 b).feeSol ≤ (calculateAuditFee t2 r2 b).feeSol ∧
    (calculateAuditFee t1 r1 b).feeLamports ≤ (calculateAuditFee t2 r2 b).feeLamports := by
  have hsol : (calculateAuditFee t1 r1 b).feeSol ≤ (calculateAuditFee t2 r2 b).feeSol := by
    rw [feeSol_factored, feeSol_factored]
    have hb1 := base_plus_token_nonneg t1
    have hm1 := le_of_lt (riskMultiplier_pos r1)
    have hmono := riskMultiplier_mono r1 r2 hr1 hr hr2
    have hbase : baseFeeSol + (t1 : ℚ) * perTokenCost / (lamportsPerSol : ℚ) ≤
        baseFeeSol + (t2 : ℚ) * perTokenCost / (lamportsPerSol : ℚ) := by
      unfold baseFeeSol perTokenCost lamportsPerSol
      have : (t1 : ℚ) ≤ (t2 : ℚ) := by exact_mod_cast ht
      nlinarith
    have hfactor : (0:ℚ) ≤ (if b then 8/10 else 1 : ℚ) := by cases b <;> norm_num
    apply mul_le_mul_of_nonneg_right _ hfactor
    calc (baseFeeSol + (t1 : ℚ) * perTokenCost / (lamportsPerSol : ℚ)) * riskMultiplier r1
        ≤ (baseFeeSol + (t2 : ℚ) * perTokenCost / (lamportsPerSol : ℚ)) * riskMultiplier r1 :=
          mul_le_mul_of_nonneg_right hbase hm1
      _ ≤ (baseFeeSol + (t2 : ℚ) * perTokenCost / (lamportsPerSol : ℚ)) * riskMultiplier r2 :=
          mul_le_mul_of_nonneg_left hmono (le_trans hb1 hbase)
  refine ⟨hsol, ?_⟩
  rw [feeLamports_eq_floor, feeLamports_eq_floor]
  apply Int.floor_le_floor
  have hl : (0:ℚ) ≤ (lamportsPerSol : ℚ) := by unfold lamportsPerSol; norm_num
  exact mul_le_mul_of_nonneg_right hsol hl

theorem fee_monotone_witness :
    (100 ≤ 200 ∧ (1:ℤ) ≤ 3 ∧ (3:ℤ) ≤ 9 ∧ (9:ℤ) ≤ 10) ∧
      ((calculateAuditFee 100 3 false).feeSol ≤ (calculateAuditFee 200 9 false).feeSol ∧
       (calculateAuditFee 100 3 false).feeLamports ≤ (calculateAuditFee 200 9 false).feeLamports) :=
  ⟨by norm_num,
   fee_monotone false 100 200 3 9 (by norm_num) (by norm_num) (by norm_num) (by norm_num)⟩

/-! ## QuotaLedger: `QuotaManager` -/

/-- Subscription tiers, mirroring the keys of `QuotaManager.TIERS`. -/
inductive Tier
  | free
  | subscriber
  | premium
  deriving DecidableEq, Repr

/-- Per-tier quota configuration, mirroring the entries of
`QuotaManager.TIERS`. -/
structure TierQuota where
  auditsPerHour : ℕ
  auditsPerDay : ℕ
  auditsPerMonth : ℕ
  monthlyBudgetSol : ℚ
  deriving Repr

/-- Mirrors `QuotaManager.TIERS`. -/
def TIERS : Tier → TierQuota
  | .free => ⟨2, 5, 20, 1/10⟩
  | .subscriber => ⟨10, 50, 999, 10⟩
  | .premium => ⟨20, 100, 9999, 100⟩

/-- Mirrors `GLOBAL_LIMIT["audits_per_minute"] = 100`. -/
def globalAuditsPerMinute : ℕ := 100

/-- The mutable state of a `QuotaManager` instance.  The Python defaultdicts
are modelled as total functions with the corresponding default values
(`"free"`, `[]`, `0.0`). -/
structure QuotaState where
  userTiers : ℕ → Tier
  auditTimestamps : ℕ → List ℕ
  userSpending : ℕ → ℕ → ℚ
  globalAuditTimestamps : List ℕ

/-- The state built by `QuotaManager.__init__`. -/
def initialQuotaState : QuotaState :=
  { userTiers := fun _ => .free
    auditTimestamps := fun _ => []
    userSpending := fun _ _ => 0
    globalAuditTimestamps := [] }

/-- Mirrors `_get_month_key` (the `"YYYY-MM"` spending key).  Calendar months
are modelled as 30-day buckets of the numeric clock; no property proved below
depends on the exact bucketing. -/
def monthKey (now : ℕ) : ℕ := now / 2592000

/-- Mirrors `_is_within_window`:
`(utcnow() - timestamp).total_seconds() < window_minutes * 60`, written
without truncated subtraction. -/
def isWithinWindow (now ts windowMinutes : ℕ) : Bool :=
  now < ts + windowMinutes * 60

/-- The admission decision of `can_audit` (`allowed` plus the machine-readable
deny reason of the first violated constraint). -/
inductive DenyReason
  | hourlyLimit
  | dailyLimit
  | monthlyLimit
  | budgetLimit
  | systemThrottle
  deriving DecidableEq, Repr

inductive Decision
  | allow
  | deny (reason : DenyReason)
  deriving DecidableEq, Repr

/-- Mirrors `QuotaManager.can_audit`.  The method first rewrites the user's
timestamp list, keeping entries newer than 24 hours (`ts > now - 24h`, i.e.
`now < ts + 86400`), then counts the rolling-hour and rolling-day windows,
takes the length of the pruned list as the "monthly" count, and evaluates the
five constraints in order, returning on the first violation.  It returns the
decision together with the mutated state. -/
def canAudit (s : QuotaState) (now userId : ℕ) (costEstimateSol : ℚ) :
    Decision × QuotaState :=
  let quota := TIERS (s.userTiers userId)
  let kept := (s.auditTimestamps userId).filter (fun ts => now < ts + 86400)
  let s' := { s with auditTimestamps := Function.update s.auditTimestamps userId kept }
  let auditsThisHour := (kept.filter (fun ts => isWithinWindow now ts 60)).length
  let auditsThisDay := (kept.filter (fun ts => isWithinWindow now ts 1440)).length
  let auditsThisMonth := kept.length
  if quota.auditsPerHour ≤ auditsThisHour then (.deny .hourlyLimit, s')
  else if quota.auditsPerDay ≤ auditsThisDay then (.deny .dailyLimit, s')
  else if quota.auditsPerMonth ≤ auditsThisMonth then (.deny .monthlyLimit, s')
  else if quota.monthlyBudgetSol < s.userSpending userId (monthKey now) + costEstimateSol then
    (.deny .budgetLimit, s')
  else if globalAuditsPerMinute ≤
      ((s.globalAuditTimestamps.filter (fun ts => now < ts + 60)).length) then
    (.deny .systemThrottle, s')
  else (.allow, s')

/-- Mirrors `QuotaManager.record_audit`: appends the user timestamp, adds the
cost to the current month's spending, appends the global timestamp and prunes
global timestamps older than one hour (`ts > now - 1h`). -/
def recordAudit (s : QuotaState) (now userId : ℕ) (costSol : ℚ) : QuotaState :=
  { userTiers := s.userTiers
    auditTimestamps :=
      Function.update s.auditTimestamps userId (s.auditTimestamps userId ++ [now])
    userSpending := fun u m =>
      if u = userId ∧ m = monthKey now then s.userSpending u m + costSol
      else s.userSpending u m
    globalAuditTimestamps :=
      ((s.globalAuditTimestamps ++ [now]).filter (fun ts => now < ts + 3600)) }

/-! ### The admission decision as the spec states it (claim C3)

The spec describes admission as "the first violated constraint in a fixed
order".  The following definitions follow the spec's wording: a list of
constraints in the documented order, searched for the first violation.  The
counters are rolling-window readings of the ledger state; the "monthly"
counter is the one the implementation uses, namely the number of timestamps
that survive the 24-hour prune (claim C1 addresses the fact that this is not
a rolling month). -/

def hourCount (s : QuotaState) (u now : ℕ) : ℕ :=
  ((s.auditTimestamps u).filter (fun ts => now < ts + 3600)).length

def dayCount (s : QuotaState) (u now : ℕ) : ℕ :=
  ((s.auditTimestamps u).filter (fun ts => now < ts + 86400)).length

/-- The implementation's "monthly" counter: the length of the timestamp list
after the 24-hour prune. -/
def monthCount (s : QuotaState) (u now : ℕ) : ℕ :=
  ((s.auditTimestamps u).filter (fun ts => now < ts + 86400)).length

def globalMinuteCount (s : QuotaState) (now : ℕ) : ℕ :=
  (s.globalAuditTimestamps.filter (fun ts => now < ts + 60)).length

/-- Whether one of the five admission constraints is violated, per the spec:
count ≥ limit for the three window limits, spend + estimate strictly greater
than the budget, and global trailing-minute count ≥ the global cap. -/
def constraintViolated (s : QuotaState) (now u : ℕ) (cost : ℚ) : DenyReason → Bool
  | .hourlyLimit => (TIERS (s.userTiers u)).auditsPerHour ≤ hourCount s u now
  | .dailyLimit => (TIERS (s.userTiers u)).auditsPerDay ≤ dayCount s u now
  | .monthlyLimit => (TIERS (s.userTiers u)).auditsPerMonth ≤ monthCount s u now
  | .budgetLimit => (TIERS (s.userTiers u)).monthlyBudgetSol <
      s.userSpending u (monthKey now) + cost
  | .systemThrottle => globalAuditsPerMinute ≤ globalMinuteCount s now

/-- The fixed evaluation order of the admission constraints. -/
def admissionCheckOrder : List DenyReason :=
  [.hourlyLimit, .dailyLimit, .monthlyLimit, .budgetLimit, .systemThrottle]

/-- Admission as the spec words it: deny with the first violated constraint
in the fixed order, allow when none trigger. -/
def specAdmission (s : QuotaState) (now u : ℕ) (cost : ℚ) : Decision :=
  match admissionCheckOrder.find? (constraintViolated s now u cost) with
  | some r => .deny r
  | none => .allow

lemma filter_window_of_kept (l : List ℕ) (now w : ℕ) (hw : w ≤ 86400) :
    (l.filter (fun ts => now < ts + 86400)).filter (fun ts => now < ts + w) =
      l.filter (fun ts => now < ts + w) := by
  induction l with
  | nil => rfl
  | cons a t ih =>
    by_cases h : now < a + w
    · have h' : now < a + 86400 := by omega
      simp [List.filter_cons, h, h', ih]
    · by_cases h' : now < a + 86400 <;> simp [List.filter_cons, h, h', ih]

/-- C3: for every ledger state, identity and estimated cost, `can_audit`
returns exactly the decision described by the spec's fixed-order admission
algorithm: it denies with the reason of the first violated constraint among
hourly limit, daily limit, monthly limit, budget limit (spend + estimate
strictly above budget) and the system-wide trailing-minute throttle, and
allows if and only if none trigger. -/
theorem canAudit_first_violation (s : QuotaState) (now u : ℕ) (cost : ℚ) :
    (canAudit s now u cost).1 = specAdmission s now u cost := by
  have hhour : ((s.auditTimestamps u).filter (fun ts => now < ts + 86400)).filter
      (fun ts => isWithinWindow now ts 60) = (s.auditTimestamps u).filter
      (fun ts => now < ts + 3600) := by
    have : (fun ts => isWithinWindow now ts 60) = (fun ts : ℕ => decide (now < ts + 3600)) := by
      funext ts; simp [isWithinWindow]
    rw [this]
    exact filter_window_of_kept _ now 3600 (by norm_num)
  have hday : ((s.auditTimestamps u).filter (fun ts => now < ts + 86400)).filter
      (fun ts => isWithinWindow now ts 1440) = (s.auditTimestamps u).filter
      (fun ts => now < ts + 86400) := by
    have : (fun ts => isWithinWindow now ts 1440) =
        (fun ts : ℕ => decide (now < ts + 86400)) := by
      funext ts; simp [isWithinWindow]
    rw [this]
    exact filter_window_of_kept _ now 86400 (by norm_num)
  simp only [canAudit, specAdmission, admissionCheckOrder]
  rw [hhour, hday]
  by_cases h1 : (TIERS (s.userTiers u)).auditsPerHour ≤
      ((s.auditTimestamps u).filter (fun ts => now < ts + 3600)).length
  · simp [List.find?, constraintViolated, hourCount, h1]
  · by_cases h2 : (TIERS (s.userTiers u)).auditsPerDay ≤
        ((s.auditTimestamps u).filter (fun ts => now < ts + 86400)).length
    · simp [List.find?, constraintViolated, hourCount, dayCount, h1, h2]
    · by_cases h3 : (TIERS (s.userTiers u)).auditsPerMonth ≤
          ((s.auditTimestamps u).filter (fun ts => now < ts + 86400)).length
      · simp [List.find?, constraintViolated, hourCount, dayCount, monthCount, h1, h2, h3]
      · by_cases h4 : (TIERS (s.userTiers u)).monthlyBudgetSol <
            s.userSpending u (monthKey now) + cost
        · simp [List.find?, constraintViolated, hourCount, dayCount, monthCount, h1, h2, h3, h4]
        · by_cases h5 : globalAuditsPerMinute ≤
              (s.globalAuditTimestamps.filter (fun ts => now < ts + 60)).length
          · simp [List.find?, constraintViolated, hourCount, dayCount, monthCount,
              globalMinuteCount, h1, h2, h3, h4, h5]
          · simp [List.find?, constraintViolated, hourCount, dayCount, monthCount,
              globalMinuteCount, h1, h2, h3, h4, h5]

/-- C10: recording usage for one identity modifies only that identity's
per-user state (plus the shared global throttle list): for every other
identity v, the stored timestamp list, the rolling hourly/daily/"monthly"
counts read at any time, every month's spend, and the tier of v are unchanged
by `record_audit(u, c)`. -/
theorem recordAudit_frame (s : QuotaState) (now u : ℕ) (c : ℚ) (v : ℕ) (hvu : v ≠ u) :
    (recordAudit s now u c).userTiers v = s.userTiers v ∧
    (recordAudit s now u c).auditTimestamps v = s.auditTimestamps v ∧
    (∀ m, (recordAudit s now u c).userSpending v m = s.userSpending v m) ∧
    (∀ t, hourCount (recordAudit s now u c) v t = hourCount s v t ∧
          dayCount (recordAudit s now u c) v t = dayCount s v t ∧
          monthCount (recordAudit s now u c) v t = monthCount s v t) := by
  have hts : (recordAudit s now u c).auditTimestamps v = s.auditTimestamps v := by
    simp [recordAudit, Function.update_noteq hvu]
  refine ⟨rfl, hts, fun m => ?_, fun t => ?_⟩
  · simp [recordAudit, hvu]
  · simp [hourCount, dayCount, monthCount, hts]

theorem recordAudit_frame_witness :
    (2 ≠ 1) ∧
      ((recordAudit initialQuotaState 50 1 (5/1000)).auditTimestamps 2 =
        initialQuotaState.auditTimestamps 2) :=
  ⟨by decide,
   (recordAudit_frame initialQuotaState 50 1 (5/1000) 2 (by decide)).2.1⟩

/-! ### The rolling-month limit (claim C1)

`can_audit` prunes every timestamp older than 24 hours and then takes the
length of the pruned list as the "monthly" count
(`audits_this_month = len(self.audit_timestamps[user_id])  # Already
filtered`).  Consequently the `audits_per_month` limit is enforced only over
a trailing 24-hour window: a sequence of admitted-and-settled requests
spaced 28 hours apart never accumulates any counter, and a free-tier
identity can settle 21 requests inside one rolling 30-day month although
`TIERS["free"]["audits_per_month"] = 20`. -/

/-- One admitted-or-denied request: run `can_audit` at time `t` and, only on
`allow`, `record_audit` — the check-then-settle sequence the coordinator
performs.  The accumulator carries the ledger state and the timestamps of
the requests settled so far. -/
def settleStep (u : ℕ) (acc : QuotaState × List ℕ) (t : ℕ) : QuotaState × List ℕ :=
  match canAudit acc.1 t u 0 with
  | (.allow, s') => (recordAudit s' t u 0, acc.2 ++ [t])
  | (.deny _, s') => (s', acc.2)

/-- Run a whole request schedule for identity `u` from the initial state. -/
def runSchedule (u : ℕ) (times : List ℕ) : QuotaState × List ℕ :=
  times.foldl (settleStep u) (initialQuotaState, [])

/-- Request times spaced 28 hours (100800 s) apart. -/
def sparseSchedule (n : ℕ) : List ℕ :=
  (List.range n).map (fun k => k * 100800)

lemma canAudit_sparse_allow (s : QuotaState) (t u : ℕ)
    (h1 : s.userTiers u = .free)
    (h2 : ∀ ts ∈ s.auditTimestamps u, ts + 86400 ≤ t)
    (h3 : s.userSpending u (monthKey t) = 0)
    (h4 : ∀ ts ∈ s.globalAuditTimestamps, ts + 60 ≤ t) :
    canAudit s t u 0 =
      (.allow, { s with auditTimestamps := Function.update s.auditTimestamps u [] }) := by
  have hk : (s.auditTimestamps u).filter (fun ts => t < ts + 86400) = [] := by
    rw [List.filter_eq_nil_iff]
    intro a ha
    have := h2 a ha
    simp only [decide_eq_true_eq]
    omega
  have hg : s.globalAuditTimestamps.filter (fun ts => t < ts + 60) = [] := by
    rw [List.filter_eq_nil_iff]
    intro a ha
    have := h4 a ha
    simp only [decide_eq_true_eq]
    omega
  simp only [canAudit, hk, hg, h1, h3]
  norm_num [TIERS, globalAuditsPerMinute]

lemma runSchedule_sparse (u n : ℕ) :
    (runSchedule u (sparseSchedule n)).2 = sparseSchedule n ∧
    (∀ ts ∈ (runSchedule u (sparseSchedule n)).1.auditTimestamps u, ts + 86400 ≤ n * 100800) ∧
    (runSchedule u (sparseSchedule n)).1.userTiers u = .free ∧
    (∀ m, (runSchedule u (sparseSchedule n)).1.userSpending u m = 0) ∧
    (∀ ts ∈ (runSchedule u (sparseSchedule n)).1.globalAuditTimestamps, ts + 60 ≤ n * 100800) := by
  induction n with
  | zero =>
    refine ⟨rfl, ?_, rfl, fun m => rfl, ?_⟩ <;> · intro ts hts; simp [runSchedule, sparseSchedule,
      initialQuotaState] at hts
  | succ n ih =>
    obtain ⟨ihrun, ihts, ihtier, ihspend, ihglob⟩ := ih
    have hsched : sparseSchedule (n + 1) = sparseSchedule n ++ [n * 100800] := by
      simp [sparseSchedule, List.range_succ]
    have hrun : runSchedule u (sparseSchedule (n + 1)) =
        settleStep u (runSchedule u (sparseSchedule n)) (n * 100800) := by
      rw [hsched]
      simp [runSchedule, List.foldl_append]
    have hallow := canAudit_sparse_allow (runSchedule u (sparseSchedule n)).1 (n * 100800) u
      ihtier ihts (ihspend _) ihglob
    rw [hrun]
    unfold settleStep
    rw [hallow]
    simp only [recordAudit, Function.update_same]
    constructor
    · rw [ihrun, hsched]
    refine ⟨?_, ihtier, ?_, ?_⟩
    · intro ts hts
      simp only [List.nil_append, List.mem_singleton] at hts
      subst hts
      omega
    · intro m
      by_cases hm : m = monthKey (n * 100800)
      · subst hm
        simp [ihspend]
      · simp [hm, ihspend]
    · intro ts hts
      have hts' := List.mem_of_mem_filter hts
      rcases List.mem_append.mp hts' with hin | hin
      · have := ihglob ts hin
        omega
      · rw [List.mem_singleton] at hin
        subst hin
        omega

/-- C1 is violated by the code: the "monthly" counter is computed from a
timestamp list pruned to the trailing 24 hours, so the monthly limit is not
enforced over a rolling month.  A free-tier identity submitting 21 requests
spaced 28 hours apart is admitted and settled every time; all 21 settled
requests lie inside a single rolling 30-day month window (all times are
below 2592000 s), exceeding the free tier's monthly limit of 20.  The
rolling hour and day parts of the claim are not refuted by this run — only
the rolling-month part fails. -/
theorem monthlyLimit_not_rolling_month :
    (runSchedule 1 (sparseSchedule 21)).2 = sparseSchedule 21 ∧
    (sparseSchedule 21).length = 21 ∧
    (∀ t ∈ sparseSchedule 21, t < 2592000) ∧
    (TIERS (initialQuotaState.userTiers 1)).auditsPerMonth = 20 ∧
    20 < 21 := by
  refine ⟨(runSchedule_sparse 1 21).1, by simp [sparseSchedule], ?_, rfl, by norm_num⟩
  intro t ht
  simp only [sparseSchedule, List.mem_map, List.mem_range] at ht
  obtain ⟨k, hk, rfl⟩ := ht
  omega

/-! ## DeduplicationCache: `AuditCache` -/

/-- Mirrors the `AuditRecord` dataclass.  The ISO-format `timestamp` string
is modelled as seconds (`ℕ`); the code only parses it back with
`fromisoformat` and compares, which the numeric clock reproduces. -/
structure AuditRecord where
  auditId : String
  userId : ℕ
  contractAddress : String
  timestamp : ℕ
  riskScore : String
  findingsSummary : String
  tokensUsed : ℕ
  costSol : ℚ
  deriving DecidableEq, Repr

/-- Mirrors the `AuditCache` state: the primary `OrderedDict` is a key-value
list in insertion order (oldest first); the two index dicts are total
functions defaulting to `[]` (Python's "key not present" and "key present
with empty list" behave identically for every operation modelled here). -/
structure AuditCache where
  maxSize : ℕ
  ttlHours : ℕ
  store : List (String × AuditRecord)
  userIndex : ℕ → List String
  contractIndex : String → List String

/-- The state built by `AuditCache.__init__`. -/
def emptyCache (maxSize ttlHours : ℕ) : AuditCache :=
  { maxSize := maxSize
    ttlHours := ttlHours
    store := []
    userIndex := fun _ => []
    contractIndex := fun _ => [] }

/-- Assignment `self.audit_cache[audit_id] = record` on an `OrderedDict`:
replace in place if the key is present, otherwise append. -/
def storeInsert : List (String × AuditRecord) → String → AuditRecord →
    List (String × AuditRecord)
  | [], k, r => [(k, r)]
  | (k', r') :: t, k, r =>
    if k' = k then (k, r) :: t else (k', r') :: storeInsert t k r

/-- `self.audit_cache.get(audit_id)`. -/
def storeGet (store : List (String × AuditRecord)) (k : String) : Option AuditRecord :=
  (store.find? (fun p => p.1 = k)).map Prod.snd

/-- The second half of `add_audit`: add the record to the primary store and
append its id to both indexes. -/
def insertEntry (c : AuditCache) (rec : AuditRecord) : AuditCache :=
  { c with
    store := storeInsert c.store rec.auditId rec
    userIndex := Function.update c.userIndex rec.userId
      (c.userIndex rec.userId ++ [rec.auditId])
    contractIndex := Function.update c.contractIndex rec.contractAddress
      (c.contractIndex rec.contractAddress ++ [rec.auditId]) }

/-- Mirrors `AuditCache.add_audit`.  When the store is at (or above)
capacity, `popitem(last=False)` removes the oldest-inserted entry and its id
is removed (first occurrence) from both index lists, then the new record is
added.  `popitem` on an empty store raises; the surrounding `except` returns
`False` with the cache unchanged. -/
def addAudit (c : AuditCache) (rec : AuditRecord) : Bool × AuditCache :=
  if c.maxSize ≤ c.store.length then
    match c.store with
    | [] => (false, c)
    | (oldId, oldRec) :: rest =>
      let c1 : AuditCache :=
        { c with
          store := rest
          userIndex := Function.update c.userIndex oldRec.userId
            ((c.userIndex oldRec.userId).erase oldId)
          contractIndex := Function.update c.contractIndex oldRec.contractAddress
            ((c.contractIndex oldRec.contractAddress).erase oldId) }
      (true, insertEntry c1 rec)
  else (true, insertEntry c rec)

/-- Mirrors `AuditCache.is_recent_audit`: scan the user's index newest-first,
skip ids no longer in the primary store, and return the first record whose
timestamp is strictly newer than `now - within_hours` and whose contract
matches. -/
def isRecentAudit (c : AuditCache) (userId : ℕ) (contractAddress : String)
    (withinHours now : ℕ) : Option AuditRecord :=
  (c.userIndex userId).reverse.findSome? (fun k =>
    match storeGet c.store k with
    | none => none
    | some r =>
      if now < r.timestamp + withinHours * 3600 ∧ r.contractAddress = contractAddress then
        some r
      else none)

/-- The invariant relating the primary store and the two secondary indexes
(spec §3, `CacheEntry` invariant). -/
structure CacheWf (c : AuditCache) : Prop where
  nodup : (c.store.map Prod.fst).Nodup
  userMem : ∀ u k, k ∈ c.userIndex u → ∃ r, (k, r) ∈ c.store ∧ r.userId = u
  contractMem : ∀ a k, k ∈ c.contractIndex a → ∃ r, (k, r) ∈ c.store ∧ r.contractAddress = a
  userCount : ∀ k r, (k, r) ∈ c.store → (c.userIndex r.userId).count k = 1
  contractCount : ∀ k r, (k, r) ∈ c.store → (c.contractIndex r.contractAddress).count k = 1

lemma emptyCache_wf (maxSize ttlHours : ℕ) : CacheWf (emptyCache maxSize ttlHours) := by
  constructor <;> simp [emptyCache]

lemma storeInsert_of_not_mem (store : List (String × AuditRecord)) (k : String)
    (r : AuditRecord) (h : k ∉ store.map Prod.fst) :
    storeInsert store k r = store ++ [(k, r)] := by
  induction store with
  | nil => rfl
  | cons p t ih =>
    obtain ⟨k', r'⟩ := p
    simp only [List.map_cons, List.mem_cons, not_or] at h
    simp only [storeInsert, if_neg (Ne.symm h.1)]
    rw [ih h.2]
    rfl

lemma storeInsert_keys_subset (store : List (String × AuditRecord)) (k : String)
    (r : AuditRecord) :
    ((storeInsert store k r).map Prod.fst) ⊆ k :: store.map Prod.fst := by
  induction store with
  | nil =>
    simp [storeInsert]
  | cons p t ih =>
    obtain ⟨k', r'⟩ := p
    by_cases h : k' = k
    · subst h
      simp [storeInsert]
    · simp only [storeInsert, if_neg h, List.map_cons]
      intro x hx
      rcases List.mem_cons.mp hx with hx | hx
      · subst hx
        simp
      · rcases List.mem_cons.mp (ih hx) with hx | hx
        · subst hx
          simp
        · simp [hx]

lemma userIndex_mem_keys (c : AuditCache) (hwf : CacheWf c) (u : ℕ) (k : String)
    (h : k ∈ c.userIndex u) : k ∈ c.store.map Prod.fst := by
  obtain ⟨r, hr, _⟩ := hwf.userMem u k h
  exact List.mem_map_of_mem Prod.fst hr

lemma contractIndex_mem_keys (c : AuditCache) (hwf : CacheWf c) (a : String) (k : String)
    (h : k ∈ c.contractIndex a) : k ∈ c.store.map Prod.fst := by
  obtain ⟨r, hr, _⟩ := hwf.contractMem a k h
  exact List.mem_map_of_mem Prod.fst hr

lemma insertEntry_wf (c : AuditCache) (rec : AuditRecord) (hwf : CacheWf c)
    (hfresh : rec.auditId ∉ c.store.map Prod.fst) :
    CacheWf (insertEntry c rec) := by
  have hstore : (insertEntry c rec).store = c.store ++ [(rec.auditId, rec)] := by
    simp only [insertEntry]
    exact storeInsert_of_not_mem c.store rec.auditId rec hfresh
  have huser : ∀ u, (insertEntry c rec).userIndex u =
      if u = rec.userId then c.userIndex rec.userId ++ [rec.auditId] else c.userIndex u := by
    intro u
    by_cases hu : u = rec.userId
    · subst hu
      simp [insertEntry]
    · simp [insertEntry, Function.update_noteq hu, hu]
  have hcontract : ∀ a, (insertEntry c rec).contractIndex a =
      if a = rec.contractAddress then
        c.contractIndex rec.contractAddress ++ [rec.auditId]
      else c.contractIndex a := by
    intro a
    by_cases ha : a = rec.contractAddress
    · subst ha
      simp [insertEntry]
    · simp [insertEntry, Function.update_noteq ha, ha]
  constructor
  · rw [hstore]
    simp only [List.map_append, List.map_cons, List.map_nil]
    rw [List.nodup_append]
    refine ⟨hwf.nodup, List.nodup_singleton _, ?_⟩
    intro a ha hb
    simp only [List.mem_singleton] at hb
    subst hb
    exact hfresh ha
  · intro u k hk
    rw [huser u] at hk
    by_cases hu : u = rec.userId
    · subst hu
      rw [if_pos rfl] at hk
      rcases List.mem_append.mp hk with h | h
      · obtain ⟨r, hr, hru⟩ := hwf.userMem _ k h
        exact ⟨r, by rw [hstore]; exact List.mem_append_left _ hr, hru⟩
      · rw [List.mem_singleton] at h
        subst h
        exact ⟨rec, by rw [hstore]; simp, rfl⟩
    · rw [if_neg hu] at hk
      obtain ⟨r, hr, hru⟩ := hwf.userMem _ k hk
      exact ⟨r, by rw [hstore]; exact List.mem_append_left _ hr, hru⟩
  · intro a k hk
    rw [hcontract a] at hk
    by_cases ha : a = rec.contractAddress
    · subst ha
      rw [if_pos rfl] at hk
      rcases List.mem_append.mp hk with h | h
      · obtain ⟨r, hr, hra⟩ := hwf.contractMem _ k h
        exact ⟨r, by rw [hstore]; exact List.mem_append_left _ hr, hra⟩
      · rw [List.mem_singleton] at h
        subst h
        exact ⟨rec, by rw [hstore]; simp, rfl⟩
    · rw [if_neg ha] at hk
      obtain ⟨r, hr, hra⟩ := hwf.contractMem _ k hk
      exact ⟨r, by rw [hstore]; exact List.mem_append_left _ hr, hra⟩
  · intro k r hkr
    rw [hstore] at hkr
    rw [huser r.userId]
    rcases List.mem_append.mp hkr with hold | hnew
    · have h1 := hwf.userCount k r hold
      have hkne : k ≠ rec.auditId := by
        intro he
        subst he
        exact hfresh (List.mem_map_of_mem Prod.fst hold)
      by_cases hu : r.userId = rec.userId
      · rw [if_pos hu, List.count_append, List.count_singleton', if_neg (Ne.symm hkne),
          ← hu, h1]
      · rw [if_neg hu, h1]
    · rw [List.mem_singleton, Prod.mk.injEq] at hnew
      obtain ⟨hk, hr⟩ := hnew
      subst hk
      rw [hr]
      rw [if_pos rfl, List.count_append, List.count_singleton', if_pos rfl]
      have hz : (c.userIndex rec.userId).count rec.auditId = 0 := by
        rw [List.count_eq_zero]
        intro hmem
        exact hfresh (userIndex_mem_keys c hwf rec.userId rec.auditId hmem)
      rw [hz]
  · intro k r hkr
    rw [hstore] at hkr
    rw [hcontract r.contractAddress]
    rcases List.mem_append.mp hkr with hold | hnew
    · have h1 := hwf.contractCount k r hold
      have hkne : k ≠ rec.auditId := by
        intro he
        subst he
        exact hfresh (List.mem_map_of_mem Prod.fst hold)
      by_cases ha : r.contractAddress = rec.contractAddress
      · rw [if_pos ha, List.count_append, List.count_singleton', if_neg (Ne.symm hkne),
          ← ha, h1]
      · rw [if_neg ha, h1]
    · rw [List.mem_singleton, Prod.mk.injEq] at hnew
      obtain ⟨hk, hr⟩ := hnew
      subst hk
      rw [hr]
      rw [if_pos rfl, List.count_append, List.count_singleton', if_pos rfl]
      have hz : (c.contractIndex rec.contractAddress).count rec.auditId = 0 := by
        rw [List.count_eq_zero]
        intro hmem
        exact hfresh (contractIndex_mem_keys c hwf rec.contractAddress rec.auditId hmem)
      rw [hz]

lemma evict_wf (c : AuditCache) (oldId : String) (oldRec : AuditRecord)
    (rest : List (String × AuditRecord)) (hwf : CacheWf c)
    (hstore : c.store = (oldId, oldRec) :: rest) :
    CacheWf
      { c with
        store := rest
        userIndex := Function.update c.userIndex oldRec.userId
          ((c.userIndex oldRec.userId).erase oldId)
        contractIndex := Function.update c.contractIndex oldRec.contractAddress
          ((c.contractIndex oldRec.contractAddress).erase oldId) } := by
  have hnodup := hwf.nodup
  rw [hstore] at hnodup
  simp only [List.map_cons, List.nodup_cons] at hnodup
  have hmem0 : (oldId, oldRec) ∈ c.store := by
    rw [hstore]
    exact List.mem_cons_self _ _
  have hcount_u := hwf.userCount oldId oldRec hmem0
  have hcount_a := hwf.contractCount oldId oldRec hmem0
  have hnotin_erase_u : oldId ∉ (c.userIndex oldRec.userId).erase oldId := by
    intro hmem
    have := List.count_pos_iff.mpr hmem
    rw [List.count_erase_self, hcount_u] at this
    omega
  have hnotin_erase_a : oldId ∉ (c.contractIndex oldRec.contractAddress).erase oldId := by
    intro hmem
    have := List.count_pos_iff.mpr hmem
    rw [List.count_erase_self, hcount_a] at this
    omega
  have huser : ∀ u, (Function.update c.userIndex oldRec.userId
      ((c.userIndex oldRec.userId).erase oldId)) u =
      if u = oldRec.userId then (c.userIndex oldRec.userId).erase oldId else c.userIndex u := by
    intro u
    by_cases hu : u = oldRec.userId
    · subst hu
      simp
    · simp [Function.update_noteq hu, hu]
  have hcontract : ∀ a, (Function.update c.contractIndex oldRec.contractAddress
      ((c.contractIndex oldRec.contractAddress).erase oldId)) a =
      if a = oldRec.contractAddress then
        (c.contractIndex oldRec.contractAddress).erase oldId
      else c.contractIndex a := by
    intro a
    by_cases ha : a = oldRec.contractAddress
    · subst ha
      simp
    · simp [Function.update_noteq ha, ha]
  constructor
  · exact hnodup.2
  · intro u k hk
    simp only [huser u] at hk
    by_cases hu : u = oldRec.userId
    · rw [if_pos hu] at hk
      have hk' : k ∈ c.userIndex oldRec.userId := List.mem_of_mem_erase hk
      obtain ⟨r, hr, hru⟩ := hwf.userMem _ k hk'
      rw [hstore] at hr
      rcases List.mem_cons.mp hr with heq | hin
      · rw [Prod.mk.injEq] at heq
        obtain ⟨hk2, hr2⟩ := heq
        subst hk2
        exact absurd hk hnotin_erase_u
      · exact ⟨r, hin, by rw [hru, hu]⟩
    · rw [if_neg hu] at hk
      obtain ⟨r, hr, hru⟩ := hwf.userMem _ k hk
      rw [hstore] at hr
      rcases List.mem_cons.mp hr with heq | hin
      · rw [Prod.mk.injEq] at heq
        obtain ⟨hk2, hr2⟩ := heq
        rw [hr2] at hru
        exact absurd (hru ▸ hu) (fun hh => hh rfl)
      · exact ⟨r, hin, hru⟩
  · intro a k hk
    simp only [hcontract a] at hk
    by_cases ha : a = oldRec.contractAddress
    · rw [if_pos ha] at hk
      have hk' : k ∈ c.contractIndex oldRec.contractAddress := List.mem_of_mem_erase hk
      obtain ⟨r, hr, hra⟩ := hwf.contractMem _ k hk'
      rw [hstore] at hr
      rcases List.mem_cons.mp hr with heq | hin
      · rw [Prod.mk.injEq] at heq
        obtain ⟨hk2, hr2⟩ := heq
        subst hk2
        exact absurd hk hnotin_erase_a
      · exact ⟨r, hin, by rw [hra, ha]⟩
    · rw [if_neg ha] at hk
      obtain ⟨r, hr, hra⟩ := hwf.contractMem _ k hk
      rw [hstore] at hr
      rcases List.mem_cons.mp hr with heq | hin
      · rw [Prod.mk.injEq] at heq
        obtain ⟨hk2, hr2⟩ := heq
        rw [hr2] at hra
        exact absurd (hra ▸ ha) (fun hh => hh rfl)
      · exact ⟨r, hin, hra⟩
  · intro k r hkr
    have hkrest : k ∈ rest.map Prod.fst := List.mem_map_of_mem Prod.fst hkr
    have hkne : oldId ≠ k := by
      intro he
      subst he
      exact hnodup.1 hkrest
    have hmem : (k, r) ∈ c.store := by
      rw [hstore]
      exact List.mem_cons_of_mem _ hkr
    have h1 := hwf.userCount k r hmem
    simp only [huser r.userId]
    by_cases hu : r.userId = oldRec.userId
    · rw [if_pos hu, ← hu, List.count_erase_of_ne (fun hh => hkne hh.symm), h1]
    · rw [if_neg hu, h1]
  · intro k r hkr
    have hkrest : k ∈ rest.map Prod.fst := List.mem_map_of_mem Prod.fst hkr
    have hkne : oldId ≠ k := by
      intro he
      subst he
      exact hnodup.1 hkrest
    have hmem : (k, r) ∈ c.store := by
      rw [hstore]
      exact List.mem_cons_of_mem _ hkr
    have h1 := hwf.contractCount k r hmem
    simp only [hcontract r.contractAddress]
    by_cases ha : r.contractAddress = oldRec.contractAddress
    · rw [if_pos ha, ← ha, List.count_erase_of_ne (fun hh => hkne hh.symm), h1]
    · rw [if_neg ha, h1]

lemma addAudit_wf (c : AuditCache) (rec : AuditRecord) (hwf : CacheWf c)
    (hfresh : rec.auditId ∉ c.store.map Prod.fst) :
    CacheWf (addAudit c rec).2 := by
  unfold addAudit
  by_cases hcap : c.maxSize ≤ c.store.length
  · rw [if_pos hcap]
    rcases hs : c.store with _ | ⟨⟨oldId, oldRec⟩, rest⟩
    · exact hwf
    · have h1 := evict_wf c oldId oldRec rest hwf hs
      have hfresh' : rec.auditId ∉ rest.map Prod.fst := by
        intro hmem
        apply hfresh
        rw [hs]
        simp only [List.map_cons]
        exact List.mem_cons_of_mem _ hmem
      exact insertEntry_wf _ rec h1 hfresh'
  · rw [if_neg hcap]
    exact insertEntry_wf c rec hwf hfresh

lemma addAudit_snd_of_empty (c : AuditCache) (rec : AuditRecord)
    (hcap : c.maxSize ≤ c.store.length) (hs : c.store = []) :
    (addAudit c rec).2 = c := by
  unfold addAudit
  rw [if_pos hcap, hs]

lemma addAudit_snd_at_capacity (c : AuditCache) (rec : AuditRecord)
    (oldId : String) (oldRec : AuditRecord) (rest : List (String × AuditRecord))
    (hcap : c.maxSize ≤ c.store.length) (hs : c.store = (oldId, oldRec) :: rest) :
    (addAudit c rec).2 = insertEntry
      { c with
        store := rest
        userIndex := Function.update c.userIndex oldRec.userId
          ((c.userIndex oldRec.userId).erase oldId)
        contractIndex := Function.update c.contractIndex oldRec.contractAddress
          ((c.contractIndex oldRec.contractAddress).erase oldId) } rec := by
  unfold addAudit
  rw [if_pos hcap, hs]

lemma addAudit_snd_below_capacity (c : AuditCache) (rec : AuditRecord)
    (hcap : ¬ c.maxSize ≤ c.store.length) :
    (addAudit c rec).2 = insertEntry c rec := by
  unfold addAudit
  rw [if_neg hcap]

lemma addAudit_keys_subset (c : AuditCache) (rec : AuditRecord) (k : String)
    (hk : k ∈ (addAudit c rec).2.store.map Prod.fst) :
    k ∈ c.store.map Prod.fst ∨ k = rec.auditId := by
  by_cases hcap : c.maxSize ≤ c.store.length
  · rcases hs : c.store with _ | ⟨⟨oldId, oldRec⟩, rest⟩
    · rw [addAudit_snd_of_empty c rec hcap hs, hs] at hk
      left
      exact hk
    · rw [addAudit_snd_at_capacity c rec oldId oldRec rest hcap hs] at hk
      simp only [insertEntry] at hk
      rcases List.mem_cons.mp (storeInsert_keys_subset rest rec.auditId rec hk) with h | h
      · right
        exact h
      · left
        simp only [List.map_cons]
        exact List.mem_cons_of_mem _ h
  · rw [addAudit_snd_below_capacity c rec hcap] at hk
    simp only [insertEntry] at hk
    rcases List.mem_cons.mp (storeInsert_keys_subset c.store rec.auditId rec hk) with h | h
    · right
      exact h
    · left
      exact h

lemma foldl_addAudit_wf (recs : List AuditRecord) (c : AuditCache) (hwf : CacheWf c)
    (hfresh : ∀ r ∈ recs, r.auditId ∉ c.store.map Prod.fst)
    (hnodup : (recs.map AuditRecord.auditId).Nodup) :
    CacheWf (recs.foldl (fun c r => (addAudit c r).2) c) := by
  induction recs generalizing c with
  | nil => exact hwf
  | cons r t ih =>
    simp only [List.foldl_cons]
    simp only [List.map_cons, List.nodup_cons] at hnodup
    apply ih
    · exact addAudit_wf c r hwf (hfresh r (List.mem_cons_self _ _))
    · intro r' hr' hk
      rcases addAudit_keys_subset c r r'.auditId hk with hin | heq
      · exact hfresh r' (List.mem_cons_of_mem _ hr') hin
      · exact hnodup.1 (heq ▸ List.mem_map_of_mem AuditRecord.auditId hr')
    · exact hnodup.2

/-- C6 amended: after any sequence of inserts with pairwise-distinct audit
ids (fresh ids, as produced at settlement time) starting from an empty
cache, every entry present in the primary store has exactly one slot in the
by-identity index and exactly one slot in the by-subject index — eviction
keeps the three structures consistent.  (The unamended claim, over arbitrary
insert sequences, is refuted by `duplicate_insert_breaks_index_invariant`:
re-inserting an already-present audit id duplicates the index slots.) -/
theorem cache_index_invariant (maxSize ttlHours : ℕ) (recs : List AuditRecord)
    (hids : (recs.map AuditRecord.auditId).Nodup) :
    ∀ k r, (k, r) ∈ (recs.foldl (fun c r => (addAudit c r).2)
        (emptyCache maxSize ttlHours)).store →
      ((recs.foldl (fun c r => (addAudit c r).2)
          (emptyCache maxSize ttlHours)).userIndex r.userId).count k = 1 ∧
      ((recs.foldl (fun c r => (addAudit c r).2)
          (emptyCache maxSize ttlHours)).contractIndex r.contractAddress).count k = 1 := by
  have hwf := foldl_addAudit_wf recs (emptyCache maxSize ttlHours)
    (emptyCache_wf maxSize ttlHours) (by intro r hr; simp [emptyCache]) hids
  intro k r hkr
  exact ⟨hwf.userCount k r hkr, hwf.contractCount k r hkr⟩

/-- A record used in the C6 counterexample. -/
def dupRecord : AuditRecord :=
  { auditId := "x"
    userId := 7
    contractAddress := "CA"
    timestamp := 0
    riskScore := "5"
    findingsSummary := "f"
    tokensUsed := 0
    costSol := 0 }

/-- The cache after inserting `dupRecord` twice into an empty cache of
capacity 10. -/
def dupCache : AuditCache :=
  (addAudit (addAudit (emptyCache 10 72) dupRecord).2 dupRecord).2

/-- C6 as stated (over arbitrary insert sequences) is false: inserting the
same audit id twice leaves a single primary entry whose id occupies two
slots in the by-identity index (and two in the by-subject index), not
exactly one. -/
theorem duplicate_insert_breaks_index_invariant :
    ("x", dupRecord) ∈ dupCache.store ∧
    (dupCache.userIndex 7).count "x" = 2 ∧
    (dupCache.contractIndex "CA").count "x" = 2 := by
  refine ⟨?_, ?_, ?_⟩
  · have : dupCache.store = [("x", dupRecord)] := rfl
    rw [this]
    exact List.mem_singleton.mpr rfl
  · rfl
  · rfl

theorem cache_index_invariant_witness :
    (([ dupRecord ].map AuditRecord.auditId).Nodup) ∧
      (∀ k r, (k, r) ∈ ([ dupRecord ].foldl (fun c r => (addAudit c r).2)
          (emptyCache 10 72)).store →
        (([ dupRecord ].foldl (fun c r => (addAudit c r).2)
            (emptyCache 10 72)).userIndex r.userId).count k = 1 ∧
        (([ dupRecord ].foldl (fun c r => (addAudit c r).2)
            (emptyCache 10 72)).contractIndex r.contractAddress).count k = 1) :=
  ⟨by simp, cache_index_invariant 10 72 [dupRecord] (by simp)⟩

lemma insertEntry_userIndex (c : AuditCache) (rec : AuditRecord) (u : ℕ) :
    (insertEntry c rec).userIndex u =
      if u = rec.userId then c.userIndex rec.userId ++ [rec.auditId] else c.userIndex u := by
  by_cases hu : u = rec.userId
  · subst hu
    simp [insertEntry]
  · simp [insertEntry, Function.update_noteq hu, hu]

lemma insertEntry_contractIndex (c : AuditCache) (rec : AuditRecord) (a : String) :
    (insertEntry c rec).contractIndex a =
      if a = rec.contractAddress then
        c.contractIndex rec.contractAddress ++ [rec.auditId]
      else c.contractIndex a := by
  by_cases ha : a = rec.contractAddress
  · subst ha
    simp [insertEntry]
  · simp [insertEntry, Function.update_noteq ha, ha]

/-- A record inserted in the capacity-2 scenario of claim C5 (identity 1,
timestamp 0). -/
def scRecord (id addr : String) : AuditRecord :=
  { auditId := id
    userId := 1
    contractAddress := addr
    timestamp := 0
    riskScore := "5"
    findingsSummary := ""
    tokensUsed := 0
    costSol := 0 }

/-- A cache of capacity 2 after inserting entries for subjects CA and CB. -/
def scenarioCache2 : AuditCache :=
  (addAudit (addAudit (emptyCache 2 72) (scRecord "a" "CA")).2 (scRecord "b" "CB")).2

/-- The same cache after the third insert (subject CC), which must evict the
oldest entry (subject CA). -/
def scenarioCache3 : AuditCache :=
  (addAudit scenarioCache2 (scRecord "c" "CC")).2

/-- C5: inserting a fresh record into a cache at capacity evicts exactly the
single oldest-inserted entry (the head of the insertion-ordered store): the
resulting store is the old store minus its head plus the new entry appended,
the evicted id is gone from the primary store and from both secondary
indexes, and no other key's index slots change.  In particular (scenario C)
a capacity-2 cache receiving inserts for subjects CA, CB, CC ends with
lookup(CA) absent and lookup(CB), lookup(CC) present. -/
theorem addAudit_at_capacity_evicts_oldest (c : AuditCache) (rec : AuditRecord)
    (oldId : String) (oldRec : AuditRecord) (rest : List (String × AuditRecord))
    (hs : c.store = (oldId, oldRec) :: rest)
    (hcap : c.store.length = c.maxSize)
    (hfresh : rec.auditId ∉ c.store.map Prod.fst)
    (hnodup : (c.store.map Prod.fst).Nodup)
    (hcu : (c.userIndex oldRec.userId).count oldId = 1)
    (hca : (c.contractIndex oldRec.contractAddress).count oldId = 1) :
    ((addAudit c rec).2.store = rest ++ [(rec.auditId, rec)] ∧
     oldId ∉ (addAudit c rec).2.store.map Prod.fst ∧
     ((addAudit c rec).2.userIndex oldRec.userId).count oldId = 0 ∧
     ((addAudit c rec).2.contractIndex oldRec.contractAddress).count oldId = 0 ∧
     (∀ k, k ≠ oldId → k ≠ rec.auditId →
        (∀ u, ((addAudit c rec).2.userIndex u).count k = (c.userIndex u).count k) ∧
        (∀ a, ((addAudit c rec).2.contractIndex a).count k = (c.contractIndex a).count k)) ∧
     ((addAudit c rec).2.store.length = c.maxSize)) ∧
    (isRecentAudit scenarioCache3 1 "CA" 24 0 = none ∧
     isRecentAudit scenarioCache3 1 "CB" 24 0 = some (scRecord "b" "CB") ∧
     isRecentAudit scenarioCache3 1 "CC" 24 0 = some (scRecord "c" "CC")) := by
  have hcap' : c.maxSize ≤ c.store.length := hcap.ge
  have hadd := addAudit_snd_at_capacity c rec oldId oldRec rest hcap' hs
  have hfreshrest : rec.auditId ∉ rest.map Prod.fst := by
    intro hmem
    apply hfresh
    rw [hs]
    simp only [List.map_cons]
    exact List.mem_cons_of_mem _ hmem
  have hne : oldId ≠ rec.auditId := by
    intro he
    apply hfresh
    rw [hs, ← he]
    simp
  have hnodup' := hnodup
  rw [hs] at hnodup'
  simp only [List.map_cons, List.nodup_cons] at hnodup'
  have hstore : (addAudit c rec).2.store = rest ++ [(rec.auditId, rec)] := by
    rw [hadd]
    simp only [insertEntry]
    exact storeInsert_of_not_mem rest rec.auditId rec hfreshrest
  refine ⟨⟨hstore, ?_, ?_, ?_, ?_, ?_⟩, ?_, ?_, ?_⟩
  · rw [hstore]
    simp only [List.map_append, List.map_cons, List.map_nil, List.mem_append,
      List.mem_singleton, not_or]
    exact ⟨hnodup'.1, hne⟩
  · rw [hadd, insertEntry_userIndex]
    by_cases hu : oldRec.userId = rec.userId
    · rw [if_pos hu, List.count_append, List.count_singleton', if_neg (Ne.symm hne)]
      show (Function.update c.userIndex oldRec.userId
        ((c.userIndex oldRec.userId).erase oldId) rec.userId).count oldId + 0 = 0
      rw [← hu, Function.update_same, List.count_erase_self, hcu]
    · rw [if_neg hu]
      show (Function.update c.userIndex oldRec.userId
        ((c.userIndex oldRec.userId).erase oldId) oldRec.userId).count oldId = 0
      rw [Function.update_same, List.count_erase_self, hcu]
  · rw [hadd, insertEntry_contractIndex]
    by_cases ha : oldRec.contractAddress = rec.contractAddress
    · rw [if_pos ha, List.count_append, List.count_singleton', if_neg (Ne.symm hne)]
      show (Function.update c.contractIndex oldRec.contractAddress
        ((c.contractIndex oldRec.contractAddress).erase oldId) rec.contractAddress).count oldId
          + 0 = 0
      rw [← ha, Function.update_same, List.count_erase_self, hca]
    · rw [if_neg ha]
      show (Function.update c.contractIndex oldRec.contractAddress
        ((c.contractIndex oldRec.contractAddress).erase oldId) oldRec.contractAddress).count
          oldId = 0
      rw [Function.update_same, List.count_erase_self, hca]
  · intro k hk1 hk2
    constructor
    · intro u
      rw [hadd, insertEntry_userIndex]
      have hinner : (Function.update c.userIndex oldRec.userId
          ((c.userIndex oldRec.userId).erase oldId) u).count k = (c.userIndex u).count k := by
        by_cases hu : u = oldRec.userId
        · subst hu
          rw [Function.update_same, List.count_erase_of_ne hk1]
        · rw [Function.update_noteq hu]
      by_cases hu2 : u = rec.userId
      · rw [if_pos hu2, List.count_append, List.count_singleton', if_neg (fun hh => hk2 hh.symm),
          ← hu2, hinner, Nat.add_zero]
      · rw [if_neg hu2]
        exact hinner
    · intro a
      rw [hadd, insertEntry_contractIndex]
      have hinner : (Function.update c.contractIndex oldRec.contractAddress
          ((c.contractIndex oldRec.contractAddress).erase oldId) a).count k =
            (c.contractIndex a).count k := by
        by_cases ha : a = oldRec.contractAddress
        · subst ha
          rw [Function.update_same, List.count_erase_of_ne hk1]
        · rw [Function.update_noteq ha]
      by_cases ha2 : a = rec.contractAddress
      · rw [if_pos ha2, List.count_append, List.count_singleton', if_neg (fun hh => hk2 hh.symm),
          ← ha2, hinner, Nat.add_zero]
      · rw [if_neg ha2]
        exact hinner
  · rw [hstore]
    have : c.store.length = rest.length + 1 := by rw [hs]; rfl
    simp only [List.length_append, List.length_cons, List.length_nil]
    omega
  · rfl
  · rfl
  · rfl

theorem addAudit_at_capacity_evicts_oldest_witness :
    (scenarioCache2.store = [("a", scRecord "a" "CA"), ("b", scRecord "b" "CB")] ∧
     scenarioCache2.store.length = scenarioCache2.maxSize ∧
     (scRecord "c" "CC").auditId ∉ scenarioCache2.store.map Prod.fst ∧
     (scenarioCache2.store.map Prod.fst).Nodup ∧
     (scenarioCache2.userIndex (scRecord "a" "CA").userId).count "a" = 1 ∧
     (scenarioCache2.contractIndex (scRecord "a" "CA").contractAddress).count "a" = 1) ∧
    ((addAudit scenarioCache2 (scRecord "c" "CC")).2.store =
      [("b", scRecord "b" "CB")] ++ [("c", scRecord "c" "CC")]) :=
  ⟨⟨rfl, rfl, by decide, by decide, rfl, rfl⟩,
   (addAudit_at_capacity_evicts_oldest scenarioCache2 (scRecord "c" "CC") "a"
      (scRecord "a" "CA") [("b", scRecord "b" "CB")] rfl rfl (by decide) (by decide)
      rfl rfl).1.1⟩

lemma list_findSome?_isSome_iff {α β : Type} (f : α → Option β) (l : List α) :
    (l.findSome? f).isSome ↔ ∃ a ∈ l, (f a).isSome := by
  induction l with
  | nil => simp [List.findSome?]
  | cons x xs ih =>
    simp only [List.findSome?]
    cases hx : f x <;> simp [hx, ih]

lemma list_findSome?_eq_some_split {α β : Type} (f : α → Option β) (l : List α) (b : β)
    (h : l.findSome? f = some b) :
    ∃ l1 a l2, l = l1 ++ a :: l2 ∧ f a = some b ∧ ∀ x ∈ l1, f x = none := by
  induction l with
  | nil => simp [List.findSome?] at h
  | cons x xs ih =>
    rw [List.findSome?] at h
    cases hx : f x with
    | some y =>
      rw [hx] at h
      exact ⟨[], x, xs, rfl, hx.trans h, by simp⟩
    | none =>
      rw [hx] at h
      obtain ⟨l1, a, l2, hl, hfa, hnone⟩ := ih h
      refine ⟨x :: l1, a, l2, by rw [hl]; rfl, hfa, ?_⟩
      intro z hz
      rcases List.mem_cons.mp hz with hz | hz
      · rw [hz]
        exact hx
      · exact hnone z hz

/-- The per-id matcher inside `is_recent_audit`: resolve the id in the
primary store and keep the record only if it is strictly newer than
`now - within_hours` and its contract matches. -/
def lookupMatch (store : List (String × AuditRecord)) (contractAddress : String)
    (withinHours now : ℕ) (k : String) : Option AuditRecord :=
  match storeGet store k with
  | none => none
  | some r =>
    if now < r.timestamp + withinHours * 3600 ∧ r.contractAddress = contractAddress then
      some r
    else none

lemma isRecentAudit_eq_findSome? (c : AuditCache) (u : ℕ) (addr : String) (H now : ℕ) :
    isRecentAudit c u addr H now =
      (c.userIndex u).reverse.findSome? (lookupMatch c.store addr H now) := rfl

lemma lookupMatch_isSome_iff (store : List (String × AuditRecord)) (addr : String)
    (H now : ℕ) (k : String) :
    (lookupMatch store addr H now k).isSome ↔
      ∃ r, storeGet store k = some r ∧
        now < r.timestamp + H * 3600 ∧ r.contractAddress = addr := by
  unfold lookupMatch
  cases hk : storeGet store k with
  | none => simp
  | some r =>
    by_cases hc : now < r.timestamp + H * 3600 ∧ r.contractAddress = addr
    · simp [hc]
    · simp only [if_neg hc, Option.isSome_none, Bool.false_eq_true, false_iff, not_exists]
      intro r' hr'
      obtain ⟨heq, hcond⟩ := hr'
      rw [Option.some_inj] at heq
      exact hc (by rw [heq]; exact hcond)

lemma lookupMatch_eq_some (store : List (String × AuditRecord)) (addr : String)
    (H now : ℕ) (k : String) (r : AuditRecord)
    (h : lookupMatch store addr H now k = some r) :
    storeGet store k = some r ∧ now < r.timestamp + H * 3600 ∧ r.contractAddress = addr := by
  unfold lookupMatch at h
  cases hk : storeGet store k with
  | none =>
    rw [hk] at h
    exact Option.noConfusion h
  | some r' =>
    rw [hk] at h
    have h' : (if now < r'.timestamp + H * 3600 ∧ r'.contractAddress = addr then some r'
        else none) = some r := h
    by_cases hc : now < r'.timestamp + H * 3600 ∧ r'.contractAddress = addr
    · rw [if_pos hc, Option.some_inj] at h'
      rw [← h']
      exact ⟨rfl, hc⟩
    · rw [if_neg hc] at h'
      exact Option.noConfusion h'

lemma lookupMatch_eq_none (store : List (String × AuditRecord)) (addr : String)
    (H now : ℕ) (k : String) (h : lookupMatch store addr H now k = none)
    (r : AuditRecord) (hget : storeGet store k = some r) :
    ¬(now < r.timestamp + H * 3600 ∧ r.contractAddress = addr) := by
  intro hc
  unfold lookupMatch at h
  rw [hget] at h
  have h' : (if now < r.timestamp + H * 3600 ∧ r.contractAddress = addr then some r
      else none) = none := h
  rw [if_pos hc] at h'
  exact Option.noConfusion h'

/-- The record inserted in the C7 boundary counterexample (identity 3,
subject CS, inserted at time 0). -/
def staleRecord : AuditRecord :=
  { auditId := "s"
    userId := 3
    contractAddress := "CS"
    timestamp := 0
    riskScore := "5"
    findingsSummary := ""
    tokensUsed := 0
    costSol := 0 }

def staleCache : AuditCache := (addAudit (emptyCache 10 72) staleRecord).2

/-- C7 as stated is false at the window boundary: the claim says lookup
returns an entry whenever `now - insertedAt ≤ H`, but the code keeps an
entry only when `insertedAt > now - H` (strict).  With an entry inserted at
time 0, looked up at `now = 86400` with H = 24 hours, `now - insertedAt`
equals H exactly, so the claim demands a hit, yet `is_recent_audit` returns
absent. -/
theorem lookup_boundary_excluded :
    storeGet staleCache.store "s" = some staleRecord ∧
    "s" ∈ staleCache.userIndex 3 ∧
    staleRecord.contractAddress = "CS" ∧
    86400 - staleRecord.timestamp ≤ 24 * 3600 ∧
    isRecentAudit staleCache 3 "CS" 24 86400 = none := by
  refine ⟨rfl, ?_, rfl, by norm_num, rfl⟩
  have h : staleCache.userIndex 3 = ["s"] := rfl
  rw [h]
  exact List.mem_singleton.mpr rfl

/-- C7 amended: lookup returns an entry if and only if some slot of the
identity's index resolves to a live record for that exact subject inserted
strictly within `H` of now (`now - insertedAt < H`, not `≤ H`); absence of
any entry and presence of only stale entries both yield absent.  Moreover a
returned record is itself fresh and matching, and it is the most recent such
entry: every later-inserted index slot resolves to no matching fresh
record. -/
theorem isRecentAudit_found_iff (c : AuditCache) (u : ℕ) (addr : String) (H now : ℕ) :
    ((isRecentAudit c u addr H now).isSome ↔
      ∃ k ∈ c.userIndex u, ∃ r, storeGet c.store k = some r ∧
        now < r.timestamp + H * 3600 ∧ r.contractAddress = addr) ∧
    (∀ r, isRecentAudit c u addr H now = some r →
      (now < r.timestamp + H * 3600 ∧ r.contractAddress = addr) ∧
      ∃ pre k post, c.userIndex u = pre ++ k :: post ∧
        storeGet c.store k = some r ∧
        ∀ k' ∈ post, ∀ r', storeGet c.store k' = some r' →
          ¬(now < r'.timestamp + H * 3600 ∧ r'.contractAddress = addr)) := by
  constructor
  · rw [isRecentAudit_eq_findSome?, list_findSome?_isSome_iff]
    constructor
    · rintro ⟨k, hk, hsome⟩
      rw [List.mem_reverse] at hk
      obtain ⟨r, hget, hcond⟩ := (lookupMatch_isSome_iff c.store addr H now k).mp hsome
      exact ⟨k, hk, r, hget, hcond⟩
    · rintro ⟨k, hk, r, hget, hcond⟩
      refine ⟨k, List.mem_reverse.mpr hk, ?_⟩
      exact (lookupMatch_isSome_iff c.store addr H now k).mpr ⟨r, hget, hcond⟩
  · intro r h
    rw [isRecentAudit_eq_findSome?] at h
    obtain ⟨l1, a, l2, hrev, hfa, hnone⟩ :=
      list_findSome?_eq_some_split (lookupMatch c.store addr H now) _ r h
    obtain ⟨hget, hcond⟩ := lookupMatch_eq_some c.store addr H now a r hfa
    refine ⟨hcond, l2.reverse, a, l1.reverse, ?_, hget, ?_⟩
    · have h2 : (c.userIndex u).reverse.reverse = (l1 ++ a :: l2).reverse := by rw [hrev]
      rw [List.reverse_reverse] at h2
      rw [h2]
      simp [List.reverse_append]
    · intro k' hk' r' hget'
      rw [List.mem_reverse] at hk'
      exact lookupMatch_eq_none c.store addr H now k' (hnone k' hk') r' hget'

theorem isRecentAudit_found_iff_witness :
    (isRecentAudit staleCache 3 "CS" 24 100).isSome ∧
    ((100 < staleRecord.timestamp + 24 * 3600 ∧ staleRecord.contractAddress = "CS") ∧
      ∃ pre k post, staleCache.userIndex 3 = pre ++ k :: post ∧
        storeGet staleCache.store k = some staleRecord ∧
        ∀ k' ∈ post, ∀ r', storeGet staleCache.store k' = some r' →
          ¬(100 < r'.timestamp + 24 * 3600 ∧ r'.contractAddress = "CS")) :=
  ⟨((isRecentAudit_found_iff staleCache 3 "CS" 24 100).1).mpr
      ⟨"s", by
        have h : staleCache.userIndex 3 = ["s"] := rfl
        rw [h]
        exact List.mem_singleton.mpr rfl,
        staleRecord, rfl, by norm_num, rfl⟩,
   (isRecentAudit_found_iff staleCache 3 "CS" 24 100).2 staleRecord rfl⟩

/-! ## AuditCoordinator: `SecurityAuditor.analyze_contract`

The two analyzers, R2 storage, NFT anchoring and payment are collaborators
(spec §6).  Their returned values enter the embedding as parameters: the
free pattern analyzer is total (it never raises), so its result is a plain
value; the paid GPT-4 call may fail, so its result is an `Except`.  The
NFT collaborator's reported risk score (used for pricing and for the cached
record) is likewise a parameter. -/

/-- Result of the paid (GPT-4) analyzer: findings text and token count. -/
structure PaidAnalysis where
  findings : String
  tokensUsed : ℕ
  deriving Repr

/-- Result of the free pattern-based analyzer (`free_analyzer`): always a
success (`status: "success"`, `tokens_used: 0`, `cost_usd: 0`). -/
structure FreeAnalysis where
  findings : String
  riskScore : ℕ
  deriving Repr

/-- The spec's `AuditOutcome`: exactly one variant per request. -/
inductive AuditOutcome
  | quotaExceeded (reason : DenyReason)
  | cached (rec : AuditRecord)
  | completed (findings : String) (tokensUsed : ℕ)
  | failed (error : String)
  deriving Repr

/-- The observable result of one `analyze_contract` call: the outcome, the
two mutated shared states, and whether `record_audit` was invoked. -/
structure PipelineResult where
  outcome : AuditOutcome
  quota : QuotaState
  cache : AuditCache
  recordedUsage : Bool

/-- Mirrors `cost_estimate = 0.005` (stage -1). -/
def costEstimate : ℚ := 5/1000

/-- Mirrors `cache_audit_result`: build an `AuditRecord` from an audit
result dict (summary truncated at 100 characters, `cost_sol =
cost_usd / 165`) and insert it. -/
def cacheAuditResult (auditId : String) (userId : ℕ) (contractAddress : String)
    (findings : String) (tokensUsed : ℕ) (costUsd : ℚ) (riskScore : String)
    (now : ℕ) (c : AuditCache) : AuditCache :=
  let summary := if 100 < findings.length then findings.take 100 ++ "..." else findings
  (addAudit c
    { auditId := auditId
      userId := userId
      contractAddress := contractAddress
      timestamp := now
      riskScore := riskScore
      findingsSummary := summary
      tokensUsed := tokensUsed
      costSol := costUsd / 165 }).2

/-- Mirrors `SecurityAuditor.analyze_contract` for one request:
stage -1 quota check (`can_audit`, estimate 0.005, only for `user_id > 0`),
stage 0 dedup check (`is_recent_audit`, 24 h), stage 0.5 tier routing (free
tier and not subscriber → free analyzer, which never fails), stages 1-5
paid analysis via the collaborator result, stage 6 payment
(`calculate_audit_fee` on the reported risk), stage 7 cache write and
stage 8 `record_audit` with the payment's `amount_sol` — the last two only
after a successful analysis.  A collaborator failure in the paid call is the
`except` path: status "error", no cache write, no usage recorded. -/
def analyzeContract (qs : QuotaState) (cs : AuditCache) (now : ℕ)
    (contractAddress : String) (userId : ℕ) (isSubscriber : Bool)
    (freeResult : FreeAnalysis) (paidResult : Except String PaidAnalysis)
    (nftRiskScore : ℤ) : PipelineResult :=
  if 0 < userId then
    match canAudit qs now userId costEstimate with
    | (.deny reason, qs1) =>
      { outcome := .quotaExceeded reason, quota := qs1, cache := cs, recordedUsage := false }
    | (.allow, qs1) =>
      match isRecentAudit cs userId contractAddress 24 now with
      | some rec =>
        { outcome := .cached rec, quota := qs1, cache := cs, recordedUsage := false }
      | none =>
        if qs1.userTiers userId = .free ∧ isSubscriber = false then
          let auditId := "audit_" ++ toString userId ++ "_" ++ toString now
          let cs1 := cacheAuditResult auditId userId contractAddress
            freeResult.findings 0 0 "5" now cs
          let qs2 := recordAudit qs1 now userId 0
          { outcome := .completed freeResult.findings 0, quota := qs2, cache := cs1,
            recordedUsage := true }
        else
          match paidResult with
          | .error e =>
            { outcome := .failed e, quota := qs1, cache := cs, recordedUsage := false }
          | .ok pa =>
            let costUsd : ℚ := (pa.tokensUsed : ℚ) / 1000 * (3/100)
            let amountSol := (calculateAuditFee pa.tokensUsed nftRiskScore isSubscriber).feeSol
            let auditId := "audit_" ++ toString userId ++ "_" ++ toString now
            let cs1 := cacheAuditResult auditId userId contractAddress
              pa.findings pa.tokensUsed costUsd (toString nftRiskScore) now cs
            let qs2 := recordAudit qs1 now userId amountSol
            { outcome := .completed pa.findings pa.tokensUsed, quota := qs2, cache := cs1,
              recordedUsage := true }
  else
    match paidResult with
    | .error e => { outcome := .failed e, quota := qs, cache := cs, recordedUsage := false }
    | .ok pa =>
      { outcome := .completed pa.findings pa.tokensUsed, quota := qs, cache := cs,
        recordedUsage := false }

lemma canAudit_snd_userTiers (s : QuotaState) (now u : ℕ) (cost : ℚ) :
    (canAudit s now u cost).2.userTiers = s.userTiers := by
  simp only [canAudit]
  split_ifs <;> rfl

/-- C2: for every identified request (`user_id > 0`), `record_audit` is
invoked exactly when the admission check allowed the request, it was not
served from cache, and its analysis succeeded (the free analyzer always
succeeds; the paid analyzer succeeds when the collaborator returns `ok`);
it is never invoked for an outcome of Denied (quota_exceeded), Cached, or
Failed, and always for Completed. -/
theorem recordUsage_iff_admitted_and_analyzed (qs : QuotaState) (cs : AuditCache)
    (now : ℕ) (addr : String) (userId : ℕ) (isSub : Bool) (fa : FreeAnalysis)
    (pa : Except String PaidAnalysis) (risk : ℤ) (hu : 0 < userId)
    (res : PipelineResult)
    (hres : res = analyzeContract qs cs now addr userId isSub fa pa risk) :
    (res.recordedUsage = true ↔
      ((canAudit qs now userId costEstimate).1 = .allow ∧
       isRecentAudit cs userId addr 24 now = none ∧
       ((qs.userTiers userId = .free ∧ isSub = false) ∨ pa.isOk = true))) ∧
    (∀ reason, res.outcome = .quotaExceeded reason → res.recordedUsage = false) ∧
    (∀ rec, res.outcome = .cached rec → res.recordedUsage = false) ∧
    (∀ e, res.outcome = .failed e → res.recordedUsage = false) ∧
    (∀ f t, res.outcome = .completed f t → res.recordedUsage = true) := by
  subst hres
  unfold analyzeContract
  rw [if_pos hu]
  rcases hq : canAudit qs now userId costEstimate with ⟨d, qs1⟩
  have htier1 : qs1.userTiers = qs.userTiers := by
    have h := canAudit_snd_userTiers qs now userId costEstimate
    rw [hq] at h
    exact h
  cases d with
  | deny reason =>
    refine ⟨?_, ?_, ?_, ?_, ?_⟩ <;> simp [hq]
  | allow =>
    cases hc : isRecentAudit cs userId addr 24 now with
    | some rec =>
      refine ⟨?_, ?_, ?_, ?_, ?_⟩ <;> simp [hq, hc]
    | none =>
      dsimp only
      by_cases hfree : qs1.userTiers userId = .free ∧ isSub = false
      · rw [if_pos hfree]
        refine ⟨?_, ?_, ?_, ?_, ?_⟩
        · simp only [true_iff]
          simp [hq, hc]
          exact Or.inl ⟨htier1 ▸ hfree.1, hfree.2⟩
        all_goals simp
      · rw [if_neg hfree]
        have hfree' : ¬(qs.userTiers userId = .free ∧ isSub = false) := by
          rw [← htier1]
          exact hfree
        cases pa with
        | error e =>
          refine ⟨?_, ?_, ?_, ?_, ?_⟩ <;>
            simp [hq, hc, hfree', Except.isOk, Except.toBool]
        | ok paOk =>
          refine ⟨?_, ?_, ?_, ?_, ?_⟩ <;>
            simp [hq, hc, Except.isOk, Except.toBool]

theorem recordUsage_iff_admitted_and_analyzed_witness :
    0 < 1 ∧
      ((analyzeContract initialQuotaState (emptyCache 1000 72) 5 "addr" 1 false
          ⟨"pf", 3⟩ (Except.ok ⟨"gf", 10⟩) 5).recordedUsage = true ↔
        ((canAudit initialQuotaState 5 1 costEstimate).1 = .allow ∧
         isRecentAudit (emptyCache 1000 72) 1 "addr" 24 5 = none ∧
         ((initialQuotaState.userTiers 1 = .free ∧ false = false) ∨
          (Except.ok (⟨"gf", 10⟩ : PaidAnalysis) : Except String PaidAnalysis).isOk = true))) :=
  ⟨by decide,
   (recordUsage_iff_admitted_and_analyzed initialQuotaState (emptyCache 1000 72) 5 "addr" 1
      false ⟨"pf", 3⟩ (Except.ok ⟨"gf", 10⟩) 5 (by decide) _ rfl).1⟩

end IntegrityMolt
